import Mathlib

/-!
Verification of the er-diagram repository: a shallow embedding of the
unified Schema Model (src/types/database-adapter.ts), the Mermaid
renderer (src/generators/mermaid-generator.ts), the MySQL adapter
(src/adapters/mysql-adapter.ts) and the PostgreSQL adapter
(src/adapters/postgresql-adapter.ts), together with proofs about the
exclusion, rendering and normalization behaviour they implement.

Database queries are modelled by an explicit catalog state (`MySQLDb`,
`PgDb`) whose fields hold exactly the rows the adapter's SQL queries
return; SQL-side computation that happens inside a query (the CASE
expression producing `full_type`, ordering, DISTINCT) is part of that
state, while every filter the adapter's SQL applies to caller input
(the `NOT IN excludedTables` clauses) and every line of TypeScript is
embedded faithfully below.
-/

namespace ERDiagram

/-- Schema Model: Column (src/types/database-adapter.ts). `isIndexed` is
optional in the source and never set by either adapter. -/
structure Column where
  name : String
  type : String
  isPrimaryKey : Bool
  isForeignKey : Bool
  isUnique : Bool
  isIndexed : Option Bool := none
deriving DecidableEq

/-- Schema Model: Index (src/types/database-adapter.ts). -/
structure Index where
  name : String
  columns : List String
  isUnique : Bool
deriving DecidableEq

/-- Schema Model: Table; `indexes` is an optional field in the source. -/
structure Table where
  name : String
  columns : List Column
  indexes : Option (List Index) := none
deriving DecidableEq

/-- Schema Model: Relationship. The source declares `type` as the string
union "identifying" | "non-identifying"; it is embedded as String so the
renderer's equality test on it is byte-faithful. -/
structure Relationship where
  fromTable : String
  toTable : String
  type : String
deriving DecidableEq

/-- Schema Model: EnumRelationship. -/
structure EnumRelationship where
  table : String
  enumType : String
deriving DecidableEq

/-- Schema Model: EnumType. -/
structure EnumType where
  name : String
  values : List String
deriving DecidableEq

/-- Schema Model: DatabaseSchema, the unit passed from adapter to renderer. -/
structure DatabaseSchema where
  enums : List EnumType
  tables : List Table
  relationships : List Relationship
  enumRelationships : List EnumRelationship
deriving DecidableEq

/-- The set of code points matched by JavaScript's regexp class `\s`
(used by `replace(/\s+/g, ...)` and `trim()` in the renderer). -/
def isJsWhitespace (c : Char) : Bool :=
  let n := c.toNat
  n = 0x20 || n = 0x09 || n = 0x0A || n = 0x0B || n = 0x0C || n = 0x0D ||
  n = 0xA0 || n = 0x1680 || (0x2000 ≤ n && n ≤ 0x200A) || n = 0x2028 ||
  n = 0x2029 || n = 0x202F || n = 0x205F || n = 0x3000 || n = 0xFEFF

/-- One left-to-right, non-rescanning pass of `.replace(/NULL/g, "")`. -/
def stripNULL : List Char → List Char
  | 'N' :: 'U' :: 'L' :: 'L' :: rest => stripNULL rest
  | c :: rest => c :: stripNULL rest
  | [] => []

/-- Embedding of `.replace(/,/g, "_")`. -/
def commaToUnderscore (l : List Char) : List Char :=
  l.map fun c => if c = ',' then '_' else c

/-- Embedding of `.replace(/\s+/g, "_")`: each maximal run of `\s`
characters becomes a single underscore; the Boolean records whether the
previous character was part of a whitespace run. -/
def squashWsAux : Bool → List Char → List Char
  | _, [] => []
  | prevWs, c :: rest =>
    if isJsWhitespace c then
      if prevWs then squashWsAux true rest
      else '_' :: squashWsAux true rest
    else c :: squashWsAux false rest

/-- Embedding of JavaScript `String.prototype.trim`. -/
def jsTrim (l : List Char) : List Char :=
  ((l.dropWhile isJsWhitespace).reverse.dropWhile isJsWhitespace).reverse

/-- MermaidGenerator.cleanType, at the character-list level:
`type.replace(/NULL/g, "").replace(/,/g, "_").replace(/\s+/g, "_").trim()`. -/
def cleanTypeList (l : List Char) : List Char :=
  jsTrim (squashWsAux false (commaToUnderscore (stripNULL l)))

/-- MermaidGenerator.cleanType (src/generators/mermaid-generator.ts). -/
def cleanType (t : String) : String :=
  ⟨cleanTypeList t.data⟩

/-- MermaidGenerator.getKeyIndicator: PK, then FK, then UK, else empty. -/
def getKeyIndicator (c : Column) : String :=
  if c.isPrimaryKey then " PK"
  else if c.isForeignKey then " FK"
  else if c.isUnique then " UK"
  else ""

/-- Concatenation of a list of strings; the TypeScript `result += piece`
loops are folds that reduce to this via `foldl_append_eq_join`. -/
def joinStrs : List String → String
  | [] => ""
  | s :: rest => s ++ joinStrs rest

/-- The column line emitted inside MermaidGenerator.generateTables:
an eight-space indent, then name, space, cleaned type, key indicator. -/
def columnLine (c : Column) : String :=
  "        " ++ c.name ++ " " ++ cleanType c.type ++ getKeyIndicator c ++ "\n"

/-- The synthetic index line emitted by MermaidGenerator.generateTables. -/
def indexLine (i : Index) : String :=
  "        string \"" ++ (if i.isUnique then "UNIQUE INDEX" else "INDEX") ++
    ": " ++ i.name ++ " (" ++ String.intercalate ", " i.columns ++ ")\"\n"

/-- The index block of a table: emitted only when `indexes` is present
and non-empty (`if (table.indexes && table.indexes.length > 0)`). -/
def indexSection (t : Table) : String :=
  match t.indexes with
  | some idxs =>
    if idxs.length > 0 then "\n" ++ idxs.foldl (fun r i => r ++ indexLine i) ""
    else ""
  | none => ""

/-- One entity block of MermaidGenerator.generateTables. -/
def tableBlock (t : Table) : String :=
  "\n    " ++ t.name ++ " \x7b\n" ++
    t.columns.foldl (fun r c => r ++ columnLine c) "" ++
    indexSection t ++ "    \x7d\n"

/-- MermaidGenerator.generateTables. -/
def generateTables (tables : List Table) : String :=
  tables.foldl (fun r t => r ++ tableBlock t) ""

/-- One pseudo-entity block of MermaidGenerator.generateEnums. -/
def enumBlock (e : EnumType) : String :=
  "\n    \"" ++ e.name ++ " (ENUM)\" \x7b\n" ++
    e.values.foldl (fun r v => r ++ ("        " ++ v ++ " string\n")) "" ++
    "    \x7d\n"

/-- MermaidGenerator.generateEnums (returns "" on an empty list). -/
def generateEnums (enums : List EnumType) : String :=
  if enums.length = 0 then ""
  else enums.foldl (fun r e => r ++ enumBlock e) ""

/-- The relationship line of MermaidGenerator.generateRelationships:
solid `||--o\x7b` with caption "has" when `type === "identifying"`,
dotted `||..o\x7b` with caption "references" otherwise. -/
def relLine (r : Relationship) : String :=
  if r.type = "identifying" then
    "    " ++ r.fromTable ++ " ||--o\x7b " ++ r.toTable ++ " : \"has\"\n"
  else
    "    " ++ r.fromTable ++ " ||..o\x7b " ++ r.toTable ++ " : \"references\"\n"

/-- MermaidGenerator.generateRelationships. -/
def generateRelationships (rels : List Relationship) : String :=
  if rels.length = 0 then ""
  else rels.foldl (fun r x => r ++ relLine x) ""

/-- The line of MermaidGenerator.generateEnumRelationships. -/
def enumRelLine (r : EnumRelationship) : String :=
  "    " ++ r.table ++ " \x7do--|| \"" ++ r.enumType ++ " (ENUM)\" : \"uses\"\n"

/-- MermaidGenerator.generateEnumRelationships (leading newline, "" when
the list is empty). -/
def generateEnumRelationships (rels : List EnumRelationship) : String :=
  if rels.length = 0 then ""
  else "\n" ++ rels.foldl (fun r x => r ++ enumRelLine x) ""

/-- MermaidGenerator.generate: header, enums, tables, blank line,
relationships, enum relationships. -/
def generate (schema : DatabaseSchema) : String :=
  "erDiagram\n" ++ generateEnums schema.enums ++ generateTables schema.tables ++
    "\n" ++ generateRelationships schema.relationships ++
    generateEnumRelationships schema.enumRelationships

/-- Row shape of MySQLAdapter.getEnums' query (DISTINCT COLUMN_TYPE,
COLUMN_NAME, TABLE_NAME over enum-typed columns, ordered by COLUMN_TYPE;
the ordering and DISTINCT happen in the database and are part of the
modelled row list). -/
structure EnumDefRow where
  enum_definition : String
  column_name : String
  table_name : String
deriving DecidableEq

/-- Row shape shared by both adapters' foreign-key queries:
`table_name` is the referencing (child) table, `foreign_table_name`
the referenced (parent) table. -/
structure FKRow where
  table_name : String
  foreign_table_name : String
  delete_rule : String
deriving DecidableEq

/-- Row shape of MySQLAdapter.getEnumRelationships' query. -/
structure TabColRow where
  table_name : String
  column_name : String
deriving DecidableEq

/-- Row shape of both adapters' column queries; `full_type` is the value
of the SQL CASE expression, computed in the database. -/
structure RawColumn where
  column_name : String
  full_type : String
deriving DecidableEq

/-- Row shape of MySQLAdapter.getIndexes' query; `column_names` is the
GROUP_CONCAT comma-joined list and `is_unique` the 1/0 produced by the
SQL CASE. -/
structure RawIndex where
  index_name : String
  column_names : String
  is_unique : Nat
deriving DecidableEq

/-- Row shape of PostgreSQLAdapter.getIndexes' query (`is_unique` is a
genuine boolean there). -/
structure PgRawIndex where
  index_name : String
  column_names : String
  is_unique : Bool
deriving DecidableEq

/-- Catalog state backing the MySQL adapter: each field holds the rows
the corresponding (unfiltered) catalog query would return, in the order
the database returns them; adapter-side SQL filters on caller input are
applied by the functions below. -/
structure MySQLDb where
  enumDefRows : List EnumDefRow
  tableNames : List String
  columnsOf : String → List RawColumn
  pkOf : String → String → Bool
  fkOf : String → String → Bool
  uniqueOf : String → String → Bool
  fkRows : List FKRow
  enumColRows : List TabColRow
  indexRowsOf : String → List RawIndex

/-- Catalog state backing the PostgreSQL adapter. -/
structure PgDb where
  enumNames : List String
  enumLabelsOf : String → List String
  tableNames : List String
  columnsOf : String → List RawColumn
  pkOf : String → String → Bool
  fkOf : String → String → Bool
  uniqueOf : String → String → Bool
  fkRows : List FKRow
  enumColsOf : String → List String
  indexRowsOf : String → List PgRawIndex

/-- The SQL `NOT IN (excludedTables)` membership test (case-sensitive
exact string match). -/
def notExcluded (excluded : List String) (t : String) : Bool :=
  !(excluded.contains t)

/-- JavaScript `String.prototype.split(",")`. -/
def splitOnComma : List Char → List (List Char)
  | [] => [[]]
  | c :: cs =>
    if c = ',' then [] :: splitOnComma cs
    else
      match splitOnComma cs with
      | [] => [[c]]
      | h :: t => (c :: h) :: t

/-- Drop one leading single-quote character if present. -/
def stripLeadQuote : List Char → List Char
  | [] => []
  | q :: rest => if q = '\'' then rest else q :: rest

/-- Embedding of `.replace(/^'|'$/g, "")`: remove a leading quote if
present, then a trailing quote if present. -/
def stripQuotes (l : List Char) : List Char :=
  (stripLeadQuote (stripLeadQuote l).reverse).reverse

/-- True when the list starts with "enum(" up to ASCII case. -/
def isEnumOpenAt (l : List Char) : Bool :=
  (l.take 5).map Char.toLower == "enum(".data

/-- The line terminators excluded by JavaScript's regexp `.` when the
`s` (dotAll) flag is not set: LF, CR, U+2028, U+2029. -/
def isLineTerm (c : Char) : Bool :=
  c.toNat = 0x0A || c.toNat = 0x0D || c.toNat = 0x2028 || c.toNat = 0x2029

/-- The longest terminator-free run at the front of the list — the only
span the dot of `/enum\((.*)\)/i` may cover. -/
def dotSpan (l : List Char) : List Char :=
  l.takeWhile fun c => !isLineTerm c

/-- Everything strictly before the last ')' of the list. -/
def beforeLastClose (l : List Char) : List Char :=
  ((l.reverse.dropWhile fun c => !(c == ')')).drop 1).reverse

/-- Embedding of `enumDef.match(/enum\((.*)\)/i)`: the capture of the
leftmost match. A match at a position needs "enum(" there (ASCII
case-insensitive) and then `(.*)\)`: since `.` does not cross line
terminators, the closing ')' must lie inside the terminator-free run
that follows "enum(", and the greedy `.*` captures that run up to its
last ')'. Positions where this fails (including when the only ')' sits
beyond a newline) are skipped, as the regex engine does. -/
def enumMatchInner : List Char → Option (List Char)
  | [] => none
  | c :: cs =>
    if isEnumOpenAt (c :: cs) && (dotSpan ((c :: cs).drop 5)).contains ')' then
      some (beforeLastClose (dotSpan ((c :: cs).drop 5)))
    else enumMatchInner cs

/-- The synthesized MySQL enum pseudo-type name `{table}_{column}_enum`. -/
def mkEnumName (table column : String) : String :=
  table ++ "_" ++ column ++ "_enum"

/-- Insertion-order deduplication, as performed by `new Set(values)`
followed by `Array.from`. -/
def dedupKeepFirst (seen : List String) : List String → List String
  | [] => []
  | x :: xs =>
    if seen.contains x then dedupKeepFirst seen xs
    else x :: dedupKeepFirst (x :: seen) xs

/-- The loop body of MySQLAdapter.getEnums: parse the enum definition,
split on commas, trim and strip quotes, and record the values under the
synthesized `{table}_{column}_enum` name the first time it is seen
(`if (!enumMap.has(enumName))`). -/
def enumStep (acc : List (String × List String)) (row : EnumDefRow) :
    List (String × List String) :=
  match enumMatchInner row.enum_definition.data with
  | some inner =>
    if acc.any (fun p => p.1 == mkEnumName row.table_name row.column_name) then acc
    else
      acc ++ [(mkEnumName row.table_name row.column_name,
        dedupKeepFirst [] ((splitOnComma inner).map fun v => String.mk (stripQuotes (jsTrim v))))]
  | none => acc

/-- MySQLAdapter.getEnums over the modelled query rows. -/
def mysqlGetEnums (rows : List EnumDefRow) : List EnumType :=
  (rows.foldl enumStep []).map fun p => { name := p.1, values := p.2 }

/-- MySQLAdapter.getTables' table-name query: the `NOT IN` filter is in
the SQL only when `excludedTables.length > 0`. -/
def mysqlTableRows (db : MySQLDb) (excluded : List String) : List String :=
  if excluded.length > 0 then db.tableNames.filter (notExcluded excluded)
  else db.tableNames

/-- MySQLAdapter.getColumns: one Column per row, with the three key-role
predicates evaluated independently per column. -/
def mysqlGetColumns (db : MySQLDb) (t : String) : List Column :=
  (db.columnsOf t).map fun rc =>
    { name := rc.column_name
      type := rc.full_type
      isPrimaryKey := db.pkOf t rc.column_name
      isForeignKey := db.fkOf t rc.column_name
      isUnique := db.uniqueOf t rc.column_name }

/-- MySQLAdapter.getIndexes: split the GROUP_CONCAT list on commas and
compare the 1/0 flag with 1. -/
def mysqlGetIndexes (db : MySQLDb) (t : String) : List Index :=
  (db.indexRowsOf t).map fun r =>
    { name := r.index_name
      columns := (splitOnComma r.column_names.data).map String.mk
      isUnique := r.is_unique == 1 }

/-- MySQLAdapter.getTables: `indexes` is set only when `showIndexes`. -/
def mysqlGetTables (db : MySQLDb) (excluded : List String) (showIndexes : Bool) :
    List Table :=
  (mysqlTableRows db excluded).map fun t =>
    { name := t
      columns := mysqlGetColumns db t
      indexes := if showIndexes then some (mysqlGetIndexes db t) else none }

/-- The row-to-Relationship mapping shared verbatim by both adapters:
`fromTable` is the referenced table, `toTable` the referencing table,
and the type is "identifying" exactly when the delete rule is CASCADE. -/
def relOfFkRow (row : FKRow) : Relationship :=
  { fromTable := row.foreign_table_name
    toTable := row.table_name
    type := if row.delete_rule = "CASCADE" then "identifying" else "non-identifying" }

/-- MySQLAdapter.getRelationships: the SQL filters only the child table
(`kcu.TABLE_NAME NOT IN ...`), and only when the exclusion list is
non-empty. -/
def mysqlGetRelationships (db : MySQLDb) (excluded : List String) :
    List Relationship :=
  let rows :=
    if excluded.length > 0 then
      db.fkRows.filter fun r => notExcluded excluded r.table_name
    else db.fkRows
  rows.map relOfFkRow

/-- MySQLAdapter.getEnumRelationships: enum columns of non-excluded
tables, each pointing at its own synthesized `{table}_{column}_enum`. -/
def mysqlGetEnumRelationships (db : MySQLDb) (excluded : List String) :
    List EnumRelationship :=
  let rows :=
    if excluded.length > 0 then
      db.enumColRows.filter fun r => notExcluded excluded r.table_name
    else db.enumColRows
  rows.map fun row =>
    { table := row.table_name
      enumType := mkEnumName row.table_name row.column_name }

/-- MySQLAdapter.getSchema: enums, tables, relationships, enum
relationships, in that order. -/
def mysqlGetSchema (db : MySQLDb) (excluded : List String) (showIndexes : Bool) :
    DatabaseSchema :=
  { enums := mysqlGetEnums db.enumDefRows
    tables := mysqlGetTables db excluded showIndexes
    relationships := mysqlGetRelationships db excluded
    enumRelationships := mysqlGetEnumRelationships db excluded }

/-- PostgreSQLAdapter.getEnums: catalog enum names with their labels in
sort order. -/
def pgGetEnums (db : PgDb) : List EnumType :=
  db.enumNames.map fun n => { name := n, values := db.enumLabelsOf n }

/-- PostgreSQLAdapter.getColumns. -/
def pgGetColumns (db : PgDb) (t : String) : List Column :=
  (db.columnsOf t).map fun rc =>
    { name := rc.column_name
      type := rc.full_type
      isPrimaryKey := db.pkOf t rc.column_name
      isForeignKey := db.fkOf t rc.column_name
      isUnique := db.uniqueOf t rc.column_name }

/-- PostgreSQLAdapter.getIndexes. -/
def pgGetIndexes (db : PgDb) (t : String) : List Index :=
  (db.indexRowsOf t).map fun r =>
    { name := r.index_name
      columns := (splitOnComma r.column_names.data).map String.mk
      isUnique := r.is_unique }

/-- PostgreSQLAdapter.getTables: the SQL applies
`tablename NOT IN (excludedTables)` unconditionally. -/
def pgGetTables (db : PgDb) (excluded : List String) (showIndexes : Bool) :
    List Table :=
  (db.tableNames.filter (notExcluded excluded)).map fun t =>
    { name := t
      columns := pgGetColumns db t
      indexes := if showIndexes then some (pgGetIndexes db t) else none }

/-- PostgreSQLAdapter.getRelationships: only the child side
(`tc.table_name`) is filtered against the exclusion list. -/
def pgGetRelationships (db : PgDb) (excluded : List String) : List Relationship :=
  (db.fkRows.filter fun r => notExcluded excluded r.table_name).map relOfFkRow

/-- PostgreSQLAdapter.getEnumRelationships: for each non-excluded table,
one entry per USER-DEFINED column naming its udt type. -/
def pgGetEnumRelationships (db : PgDb) (excluded : List String) :
    List EnumRelationship :=
  (db.tableNames.filter (notExcluded excluded)).foldl
    (fun acc t =>
      acc ++ (db.enumColsOf t).map fun e => { table := t, enumType := e })
    []

/-- PostgreSQLAdapter.getSchema. -/
def pgGetSchema (db : PgDb) (excluded : List String) (showIndexes : Bool) :
    DatabaseSchema :=
  { enums := pgGetEnums db
    tables := pgGetTables db excluded showIndexes
    relationships := pgGetRelationships db excluded
    enumRelationships := pgGetEnumRelationships db excluded }

/-- MySQLAdapter.disconnect: `if (this.connection) await this.connection.end()`.
The field is unassigned (undefined, hence falsy) until connect() succeeds;
the result lists the connections on which `end()` is invoked. -/
def mysqlDisconnect {Conn : Type} (connection : Option Conn) : List Conn :=
  match connection with
  | some c => [c]
  | none => []

/-- PostgreSQLAdapter.disconnect: `if (this.sql) await this.sql.end()`,
with the same definite-assignment-asserted field pattern. -/
def pgDisconnect {Conn : Type} (sql : Option Conn) : List Conn :=
  match sql with
  | some c => [c]
  | none => []

/-- Decidable rendering of the claim-side condition "only single spaces
as whitespace": every whitespace character is a plain space and is not
followed by another whitespace character. -/
def wsOnlySingleSpaces : List Char → Bool
  | [] => true
  | [c] => !isJsWhitespace c || c == ' '
  | c :: d :: rest =>
    (!isJsWhitespace c || (c == ' ' && !isJsWhitespace d)) &&
      wsOnlySingleSpaces (d :: rest)

/-- Adjacent-pair condition used for the index-marker analysis: the pair
may not be 'X' immediately followed by ':' (so the text cannot contain
the substring "X:", hence not "INDEX:"). -/
abbrev xcolonFree (a b : Char) : Prop := ¬(a = 'X' ∧ b = ':')

/-- Executable check that no "X:" pair occurs in consecutive positions. -/
def chainOkB : List Char → Bool
  | [] => true
  | [_] => true
  | a :: b :: rest => !(a == 'X' && b == ':') && chainOkB (b :: rest)

/-- A character list is safe when it has no "X:" pair and does not begin
with ':' (so it can be appended after arbitrary text without creating an
"X:" pair at the seam). -/
def SafeR (l : List Char) : Prop :=
  List.Chain' xcolonFree l ∧ l.head? ≠ some ':'

/-- Decidable hypothesis: every catalog-derived string the renderer will
inject into the diagram (enum names and values, table names, column
names, cleaned column types, relationship endpoints, enum-relationship
fields) is free of the two-character sequence "X:". -/
def schemaXColonOk (schema : DatabaseSchema) : Bool :=
  (schema.enums.all fun e => chainOkB e.name.data &&
    e.values.all fun v => chainOkB v.data) &&
  (schema.tables.all fun t => chainOkB t.name.data &&
    t.columns.all fun c => chainOkB c.name.data && chainOkB (cleanType c.type).data) &&
  (schema.relationships.all fun r =>
    chainOkB r.fromTable.data && chainOkB r.toTable.data) &&
  (schema.enumRelationships.all fun r =>
    chainOkB r.table.data && chainOkB r.enumType.data)

end ERDiagram

namespace ERDiagram

/-! ### General helper lemmas -/

theorem strExt {a b : String} (h : a.data = b.data) : a = b := by
  cases a; cases b; exact congrArg String.mk h

theorem foldl_append_eq_join {α : Type} (f : α → String) :
    ∀ (l : List α) (a : String),
      l.foldl (fun r x => r ++ f x) a = a ++ joinStrs (l.map f) := by
  intro l
  induction l with
  | nil =>
    intro a
    apply strExt
    simp [joinStrs, String.data_append]
  | cons x xs ih =>
    intro a
    rw [List.foldl_cons, ih, List.map_cons]
    apply strExt
    simp [joinStrs, String.data_append]

theorem infix_joinStrs {α : Type} (f : α → String) {x : α} :
    ∀ {l : List α}, x ∈ l → (f x).data <:+: (joinStrs (l.map f)).data := by
  intro l
  induction l with
  | nil => intro h; cases h
  | cons y ys ih =>
    intro h
    rw [List.map_cons]
    show (f x).data <:+: (f y ++ joinStrs (ys.map f)).data
    rw [String.data_append]
    rcases List.mem_cons.mp h with rfl | hmem
    · exact (List.prefix_append _ _).isInfix
    · exact (ih hmem).trans (List.suffix_append _ _).isInfix

theorem contains_eq_false_of_forall_ne {l : List String} {t : String}
    (h : ∀ x ∈ l, x ≠ t) : l.contains t = false := by
  cases hcon : l.contains t with
  | false => rfl
  | true => exact absurd rfl (h t (by simpa using hcon))

theorem mem_of_mem_dropWhile {p : Char → Bool} {l : List Char} {c : Char}
    (h : c ∈ l.dropWhile p) : c ∈ l :=
  (List.dropWhile_sublist p).subset h

theorem dropWhile_eq_self_of_all {p : Char → Bool} {l : List Char}
    (h : ∀ c ∈ l, p c = false) : l.dropWhile p = l := by
  cases l with
  | nil => rfl
  | cons c cs => simp [List.dropWhile_cons, h c (by simp)]

/-! ### cleanType lemmas -/

theorem stripNULL_eq_self :
    ∀ (l : List Char), ¬("NULL".data <:+: l) → stripNULL l = l := by
  intro l
  induction l using stripNULL.induct with
  | case1 rest _ =>
    intro h
    exact absurd ⟨[], rest, rfl⟩ h
  | case2 c rest hne ih =>
    intro h
    have htail : ¬("NULL".data <:+: rest) := by
      intro hinf
      obtain ⟨s, t, hst⟩ := hinf
      exact h ⟨c :: s, t, by simp [← hst]⟩
    rw [stripNULL.eq_def]
    split
    · rename_i x1 rest1 heq
      injection heq with hc hr
      exact absurd hr (hne _ hc)
    · rename_i x1 c2 rest2 hnot heq
      injection heq with hc hr
      subst hc
      subst hr
      rw [ih htail]
    · rename_i x1 heq
      exact absurd heq (List.cons_ne_nil c rest)
  | case3 =>
    intro _
    rfl

theorem commaToUnderscore_eq_self {l : List Char}
    (h : ∀ c ∈ l, ¬(c = ',')) : commaToUnderscore l = l := by
  induction l with
  | nil => rfl
  | cons d ds ih =>
    unfold commaToUnderscore at *
    simp only [List.map_cons, List.cons.injEq]
    constructor
    · simp [h d (by simp)]
    · exact ih fun c hc => h c (List.mem_cons_of_mem d hc)

theorem squashWsAux_eq_self {l : List Char}
    (h : ∀ c ∈ l, isJsWhitespace c = false) :
    ∀ b, squashWsAux b l = l := by
  induction l with
  | nil => intro b; rfl
  | cons d ds ih =>
    intro b
    have hd : isJsWhitespace d = false := h d (by simp)
    simp only [squashWsAux, hd]
    simp [ih fun c hc => h c (List.mem_cons_of_mem d hc)]

theorem jsTrim_eq_self {l : List Char}
    (h : ∀ c ∈ l, isJsWhitespace c = false) : jsTrim l = l := by
  unfold jsTrim
  rw [dropWhile_eq_self_of_all h]
  rw [dropWhile_eq_self_of_all fun c hc => h c (List.mem_reverse.mp hc)]
  exact List.reverse_reverse l

theorem mem_squashWsAux {c : Char} :
    ∀ {l : List Char} {b : Bool}, c ∈ squashWsAux b l →
      c = '_' ∨ (c ∈ l ∧ isJsWhitespace c = false) := by
  intro l
  induction l with
  | nil => intro b h; simp [squashWsAux] at h
  | cons d ds ih =>
    intro b h
    simp only [squashWsAux] at h
    by_cases hd : isJsWhitespace d
    · rw [if_pos hd] at h
      cases b with
      | true =>
        rcases ih (b := true) (by simpa using h) with h1 | h2
        · exact Or.inl h1
        · exact Or.inr ⟨List.mem_cons_of_mem d h2.1, h2.2⟩
      | false =>
        simp only [if_neg (by simp : ¬(false = true))] at h
        rcases List.mem_cons.mp h with rfl | hmem
        · exact Or.inl rfl
        · rcases ih (b := true) hmem with h1 | h2
          · exact Or.inl h1
          · exact Or.inr ⟨List.mem_cons_of_mem d h2.1, h2.2⟩
    · rw [if_neg hd] at h
      rcases List.mem_cons.mp h with rfl | hmem
      · exact Or.inr ⟨List.mem_cons_self _ _, by simpa using hd⟩
      · rcases ih (b := false) hmem with h1 | h2
        · exact Or.inl h1
        · exact Or.inr ⟨List.mem_cons_of_mem d h2.1, h2.2⟩

theorem mem_jsTrim {c : Char} {l : List Char} (h : c ∈ jsTrim l) : c ∈ l := by
  unfold jsTrim at h
  rw [List.mem_reverse] at h
  have h2 := mem_of_mem_dropWhile h
  rw [List.mem_reverse] at h2
  exact mem_of_mem_dropWhile h2

theorem mem_cleanTypeList {c : Char} {l : List Char}
    (h : c ∈ cleanTypeList l) : ¬(c = ',') ∧ isJsWhitespace c = false := by
  unfold cleanTypeList at h
  have h1 := mem_jsTrim h
  rcases mem_squashWsAux h1 with rfl | ⟨hmem, hws⟩
  · exact ⟨by decide, by decide⟩
  · refine ⟨?_, hws⟩
    unfold commaToUnderscore at hmem
    rw [List.mem_map] at hmem
    obtain ⟨d, _, rfl⟩ := hmem
    by_cases hd : d = ',' <;> simp [hd]

/-! ### Claim theorems -/

/-- C2: the rendered key indicator is chosen by precedence PK > FK > UK >
none from the Column's three boolean predicates; in particular a Column
with all three true renders " PK" only, and one with all three false
renders no indicator. -/
theorem claim_C2 (c : Column) :
    (c.isPrimaryKey = true → getKeyIndicator c = " PK") ∧
    (c.isPrimaryKey = false → c.isForeignKey = true → getKeyIndicator c = " FK") ∧
    (c.isPrimaryKey = false → c.isForeignKey = false → c.isUnique = true →
      getKeyIndicator c = " UK") ∧
    (c.isPrimaryKey = false → c.isForeignKey = false → c.isUnique = false →
      getKeyIndicator c = "") := by
  obtain ⟨n, ty, pk, fk, uk, ix⟩ := c
  cases pk <;> cases fk <;> cases uk <;> simp [getKeyIndicator]

/-- Witness for C2: the all-three-true column renders with " PK". -/
theorem claim_C2_witness :
    getKeyIndicator ⟨"id", "integer", true, true, true, none⟩ = " PK" :=
  (claim_C2 ⟨"id", "integer", true, true, true, none⟩).1 rfl

/-- C3: both adapters map a foreign-key row to a Relationship whose
`fromTable` is the referenced (parent) table and whose type is
"identifying" iff the delete rule is CASCADE; the renderer emits the
solid `||--o\x7b`/"has" line for identifying relationships and the dotted
`||..o\x7b`/"references" line for non-identifying ones, keeping
`fromTable` on the left (parent) side in both. -/
theorem claim_C3 (row : FKRow) :
    (relOfFkRow row).fromTable = row.foreign_table_name ∧
    (relOfFkRow row).toTable = row.table_name ∧
    ((relOfFkRow row).type = "identifying" ↔ row.delete_rule = "CASCADE") ∧
    (∀ rel : Relationship, rel.type = "identifying" →
      relLine rel = "    " ++ rel.fromTable ++ " ||--o\x7b " ++ rel.toTable ++ " : \"has\"\n") ∧
    (∀ rel : Relationship, rel.type = "non-identifying" →
      relLine rel = "    " ++ rel.fromTable ++ " ||..o\x7b " ++ rel.toTable ++ " : \"references\"\n") := by
  refine ⟨rfl, rfl, ?_, ?_, ?_⟩
  · unfold relOfFkRow
    by_cases h : row.delete_rule = "CASCADE" <;> simp [h]
  · intro rel h
    unfold relLine
    rw [if_pos h]
  · intro rel h
    unfold relLine
    rw [if_neg (by rw [h]; decide)]

/-- Witness for C3: a CASCADE row produces an identifying relationship
rendered with the solid connector and caption "has". -/
theorem claim_C3_witness :
    relLine ⟨"users", "orders", "identifying"⟩ =
      "    users ||--o\x7b orders : \"has\"\n" :=
  (claim_C3 ⟨"orders", "users", "CASCADE"⟩).2.2.2.1 ⟨"users", "orders", "identifying"⟩ rfl

/-- Counterexample for C4: "double precision" has no comma, no NULL
token, and only single spaces as whitespace, yet cleanType rewrites its
space to an underscore, so the claimed identity fails. -/
theorem claim_C4_counterexample :
    ("double precision".data.contains ',') = false ∧
    ¬("NULL".data <:+: "double precision".data) ∧
    wsOnlySingleSpaces "double precision".data = true ∧
    cleanType "double precision" ≠ "double precision" := by
  refine ⟨by decide, by decide, by decide, by decide⟩

/-- C4 (amended): a type string containing no comma, no occurrence of
the token NULL, and no whitespace at all is returned unchanged by
cleanType. (As stated the claim also allowed single interior spaces,
but `replace(/\s+/g, "_")` rewrites every space, see the
counterexample.) -/
theorem claim_C4 (s : String)
    (h1 : ∀ c ∈ s.data, ¬(c = ',') ∧ isJsWhitespace c = false)
    (h2 : ¬("NULL".data <:+: s.data)) : cleanType s = s := by
  apply strExt
  show cleanTypeList s.data = s.data
  have hA : ∀ c ∈ s.data, isJsWhitespace c = false := fun c hc => (h1 c hc).2
  unfold cleanTypeList
  rw [stripNULL_eq_self _ h2]
  rw [commaToUnderscore_eq_self fun c hc => (h1 c hc).1]
  rw [squashWsAux_eq_self hA false]
  exact jsTrim_eq_self hA

/-- Witness for C4: a representative clean type string is fixed. -/
theorem claim_C4_witness : cleanType "varchar(255)" = "varchar(255)" :=
  claim_C4 "varchar(255)" (by decide) (by decide)

/-- C8: both adapters' disconnect is a no-op when no connection was ever
established (the truthiness guard on the unassigned field), and invokes
end() on the connection exactly once whenever one exists, regardless of
how the call was reached. -/
theorem claim_C8 (Conn : Type) (c : Conn) :
    mysqlDisconnect (none : Option Conn) = [] ∧
    pgDisconnect (none : Option Conn) = [] ∧
    mysqlDisconnect (some c) = [c] ∧
    pgDisconnect (some c) = [c] :=
  ⟨rfl, rfl, rfl, rfl⟩

/-- C9: generate is deterministic — it depends on nothing but the four
sequences of the Schema Model, so equal contents give byte-identical
text. -/
theorem claim_C9 (a b : DatabaseSchema)
    (h1 : a.enums = b.enums) (h2 : a.tables = b.tables)
    (h3 : a.relationships = b.relationships)
    (h4 : a.enumRelationships = b.enumRelationships) :
    generate a = generate b := by
  obtain ⟨e1, t1, r1, er1⟩ := a
  obtain ⟨e2, t2, r2, er2⟩ := b
  cases h1
  cases h2
  cases h3
  cases h4
  rfl

/-- Witness for C9: two calls on one fixed Schema Model instance. -/
theorem claim_C9_witness :
    generate ⟨[⟨"user_status", ["active", "inactive"]⟩],
        [⟨"users", [⟨"id", "integer", true, false, false, none⟩], none⟩], [], []⟩ =
      generate ⟨[⟨"user_status", ["active", "inactive"]⟩],
        [⟨"users", [⟨"id", "integer", true, false, false, none⟩], none⟩], [], []⟩ :=
  claim_C9 _ _ rfl rfl rfl rfl

/-- C10: cleanType's output never contains a comma or a whitespace
character, and every rendered column line is exactly the indent, the
column name, one space, the cleaned type and the key indicator. -/
theorem claim_C10 (s : String) (col : Column) :
    ((cleanType s).data.all fun c => !(c == ',') && !isJsWhitespace c) = true ∧
    columnLine col =
      "        " ++ col.name ++ " " ++ cleanType col.type ++ getKeyIndicator col ++ "\n" := by
  constructor
  · rw [List.all_eq_true]
    intro c hc
    have h := mem_cleanTypeList (l := s.data) hc
    simp [h.1, h.2]
  · rfl

/-- C7: the renderer is total (the embedding is a total function) and a
Relationship always contributes its line to the output, with no
hypothesis that its fromTable or toTable names an existing Table. -/
theorem claim_C7 (schema : DatabaseSchema) (rel : Relationship)
    (h : rel ∈ schema.relationships) :
    (relLine rel).data <:+: (generate schema).data := by
  have hne : schema.relationships ≠ [] := List.ne_nil_of_mem h
  have hmid : (relLine rel).data <:+: (joinStrs (schema.relationships.map relLine)).data :=
    infix_joinStrs relLine h
  unfold generate generateRelationships
  rw [if_neg fun hlen => hne (List.length_eq_zero.mp hlen)]
  rw [foldl_append_eq_join]
  refine hmid.trans ⟨"erDiagram\n".data ++ (generateEnums schema.enums).data ++
    (generateTables schema.tables).data ++ "\n".data ++ ("" : String).data,
    (generateEnumRelationships schema.enumRelationships).data, ?_⟩
  simp [String.data_append, List.append_assoc]

/-- Witness for C7: a Schema Model with a dangling Relationship whose
toTable "ghost" names no Table still renders the relationship line. -/
theorem claim_C7_witness :
    (relLine ⟨"users", "ghost", "non-identifying"⟩).data <:+:
      (generate ⟨[], [⟨"users", [⟨"id", "integer", true, false, false, none⟩], none⟩],
        [⟨"users", "ghost", "non-identifying"⟩], []⟩).data :=
  claim_C7 _ _ (List.mem_singleton.mpr rfl)

theorem notExcluded_eq_false {excluded : List String} {x : String}
    (h : x ∈ excluded) : notExcluded excluded x = false := by
  unfold notExcluded
  simp [h]

theorem filter_notExcluded_ne {α : Type} (f : α → String) {l : List α}
    {excluded : List String} {t : String} (h : t ∈ excluded) :
    ∀ x ∈ l.filter (fun r => notExcluded excluded (f r)), f x ≠ t := by
  intro x hx heq
  have h2 := (List.mem_filter.mp hx).2
  rw [heq, notExcluded_eq_false h] at h2
  cases h2

theorem foldl_append_lists {α β : Type} (f : α → List β) :
    ∀ (l : List α) (a : List β),
      l.foldl (fun r x => r ++ f x) a = a ++ l.flatMap f := by
  intro l
  induction l with
  | nil => intro a; simp
  | cons x xs ih => intro a; rw [List.foldl_cons, ih]; simp [List.append_assoc]

/-- Counterexample for C1: with tables "a" and "b", a foreign key from
child "b" to parent "a", and excludedTables = ["a"], both adapters'
relationship queries filter only the child side, so the excluded table
"a" still occurs as the fromTable of the returned Relationship. -/
theorem claim_C1_counterexample :
    ((mysqlGetSchema ⟨[], ["a", "b"], fun _ => [], fun _ _ => false, fun _ _ => false,
        fun _ _ => false, [⟨"b", "a", "NO ACTION"⟩], [], fun _ => []⟩
      ["a"] false).relationships.map Relationship.fromTable) = ["a"] := by
  decide

/-- C1 (amended): a table name in excludedTables never appears among the
Schema Model's table names, as the toTable (child side) of a
Relationship, or as the table of an EnumRelationship, for either
adapter. (As stated the claim also excluded it from the fromTable side,
but the SQL filters only the child table — see the counterexample.) -/
theorem claim_C1 (db : MySQLDb) (pdb : PgDb) (excluded : List String)
    (si : Bool) (t : String) (h : t ∈ excluded) :
    (((mysqlGetSchema db excluded si).tables.map Table.name).contains t = false) ∧
    (((mysqlGetSchema db excluded si).relationships.map Relationship.toTable).contains t = false) ∧
    (((mysqlGetSchema db excluded si).enumRelationships.map EnumRelationship.table).contains t = false) ∧
    (((pgGetSchema pdb excluded si).tables.map Table.name).contains t = false) ∧
    (((pgGetSchema pdb excluded si).relationships.map Relationship.toTable).contains t = false) ∧
    (((pgGetSchema pdb excluded si).enumRelationships.map EnumRelationship.table).contains t = false) := by
  have hpos : 0 < excluded.length := List.length_pos.mpr (List.ne_nil_of_mem h)
  refine ⟨?_, ?_, ?_, ?_, ?_, ?_⟩
  · apply contains_eq_false_of_forall_ne
    intro x hx
    simp only [mysqlGetSchema, mysqlGetTables, mysqlTableRows, if_pos hpos, List.map_map] at hx
    obtain ⟨r, hr, rfl⟩ := List.mem_map.mp hx
    exact filter_notExcluded_ne id h r hr
  · apply contains_eq_false_of_forall_ne
    intro x hx
    simp only [mysqlGetSchema, mysqlGetRelationships, if_pos hpos, List.map_map] at hx
    obtain ⟨r, hr, rfl⟩ := List.mem_map.mp hx
    exact filter_notExcluded_ne FKRow.table_name h r hr
  · apply contains_eq_false_of_forall_ne
    intro x hx
    simp only [mysqlGetSchema, mysqlGetEnumRelationships, if_pos hpos, List.map_map] at hx
    obtain ⟨r, hr, rfl⟩ := List.mem_map.mp hx
    exact filter_notExcluded_ne TabColRow.table_name h r hr
  · apply contains_eq_false_of_forall_ne
    intro x hx
    simp only [pgGetSchema, pgGetTables, List.map_map] at hx
    obtain ⟨r, hr, rfl⟩ := List.mem_map.mp hx
    exact filter_notExcluded_ne id h r hr
  · apply contains_eq_false_of_forall_ne
    intro x hx
    simp only [pgGetSchema, pgGetRelationships, List.map_map] at hx
    obtain ⟨r, hr, rfl⟩ := List.mem_map.mp hx
    exact filter_notExcluded_ne FKRow.table_name h r hr
  · apply contains_eq_false_of_forall_ne
    intro x hx
    simp only [pgGetSchema, pgGetEnumRelationships, foldl_append_lists, List.nil_append] at hx
    obtain ⟨er, her, rfl⟩ := List.mem_map.mp hx
    obtain ⟨tb, htb, hin⟩ := List.mem_flatMap.mp her
    obtain ⟨e, _, rfl⟩ := List.mem_map.mp hin
    exact filter_notExcluded_ne id h tb htb

/-- Witness for C1: a concrete catalog with tables "a" and "b" and
excludedTables = ["a"]. -/
theorem claim_C1_witness :
    ((mysqlGetSchema ⟨[], ["a", "b"], fun _ => [], fun _ _ => false, fun _ _ => false,
        fun _ _ => false, [⟨"b", "a", "CASCADE"⟩], [⟨"b", "status"⟩], fun _ => []⟩
      ["a"] false).tables.map Table.name).contains "a" = false :=
  (claim_C1 ⟨[], ["a", "b"], fun _ => [], fun _ _ => false, fun _ _ => false,
      fun _ _ => false, [⟨"b", "a", "CASCADE"⟩], [⟨"b", "status"⟩], fun _ => []⟩
    ⟨[], fun _ => [], ["a", "b"], fun _ => [], fun _ _ => false, fun _ _ => false,
      fun _ _ => false, [⟨"b", "a", "CASCADE"⟩], fun _ => [], fun _ => []⟩
    ["a"] false "a" (List.mem_singleton.mpr rfl)).1

theorem mem_map_fst_enumStep {acc : List (String × List String)}
    {r : EnumDefRow} {n : String} (hn : n ∈ acc.map Prod.fst) :
    n ∈ (enumStep acc r).map Prod.fst := by
  unfold enumStep
  cases enumMatchInner r.enum_definition.data with
  | none => exact hn
  | some inner =>
    dsimp only
    by_cases hany :
        (acc.any fun p => p.1 == mkEnumName r.table_name r.column_name) = true
    · rw [if_pos hany]; exact hn
    · rw [if_neg hany, List.map_append]; exact List.mem_append_left _ hn

theorem enumFold_mono {n : String} :
    ∀ (rows : List EnumDefRow) (acc : List (String × List String)),
      n ∈ acc.map Prod.fst → n ∈ (rows.foldl enumStep acc).map Prod.fst := by
  intro rows
  induction rows with
  | nil => intro acc hn; exact hn
  | cons r rs ih =>
    intro acc hn
    rw [List.foldl_cons]
    exact ih _ (mem_map_fst_enumStep hn)

theorem name_mem_enumFold {row : EnumDefRow}
    (hp : (enumMatchInner row.enum_definition.data).isSome = true) :
    ∀ (rows : List EnumDefRow) (acc : List (String × List String)), row ∈ rows →
      mkEnumName row.table_name row.column_name ∈
        (rows.foldl enumStep acc).map Prod.fst := by
  intro rows
  induction rows with
  | nil => intro acc hmem; cases hmem
  | cons r rs ih =>
    intro acc hmem
    rw [List.foldl_cons]
    rcases List.mem_cons.mp hmem with rfl | htail
    · apply enumFold_mono
      unfold enumStep
      cases hmatch : enumMatchInner row.enum_definition.data with
      | none => rw [hmatch] at hp; cases hp
      | some inner =>
        dsimp only
        by_cases hany :
            (acc.any fun p => p.1 == mkEnumName row.table_name row.column_name) = true
        · rw [if_pos hany]
          obtain ⟨p, hpmem, hpeq⟩ :
              ∃ p ∈ acc, p.1 = mkEnumName row.table_name row.column_name := by
            simpa using hany
          rw [← hpeq]
          exact List.mem_map_of_mem Prod.fst hpmem
        · rw [if_neg hany, List.map_append]
          exact List.mem_append_right _ (by simp)
    · exact ih _ htail

/-- C5: in the MySQL adapter every parseable enum-typed column row yields
an EnumType entry named `{table}_{column}_enum`; grouping is by that
synthesized name, so two columns with byte-identical value lists in
different tables still yield two independent entries; and every
EnumRelationship it emits references a name synthesized from its own
table. -/
theorem claim_C5 (rows : List EnumDefRow) (r1 r2 : EnumDefRow)
    (h1 : r1 ∈ rows) (h2 : r2 ∈ rows)
    (hp1 : (enumMatchInner r1.enum_definition.data).isSome = true)
    (hp2 : (enumMatchInner r2.enum_definition.data).isSome = true)
    (hname : mkEnumName r1.table_name r1.column_name ≠
      mkEnumName r2.table_name r2.column_name) :
    (((mysqlGetEnums rows).map EnumType.name).contains
      (mkEnumName r1.table_name r1.column_name) = true) ∧
    (((mysqlGetEnums rows).map EnumType.name).contains
      (mkEnumName r2.table_name r2.column_name) = true) ∧
    (mysqlGetEnums [⟨"enum('a','b')", "status", "t1"⟩, ⟨"enum('a','b')", "status", "t2"⟩] =
      [⟨"t1_status_enum", ["a", "b"]⟩, ⟨"t2_status_enum", ["a", "b"]⟩]) ∧
    (∀ (db : MySQLDb) (excluded : List String) (er : EnumRelationship),
      er ∈ mysqlGetEnumRelationships db excluded →
        ∃ colName, er.enumType = mkEnumName er.table colName) := by
  refine ⟨?_, ?_, by decide, ?_⟩
  · unfold mysqlGetEnums
    rw [List.map_map]
    show ((rows.foldl enumStep []).map Prod.fst).contains _ = true
    simpa using name_mem_enumFold hp1 rows [] h1
  · unfold mysqlGetEnums
    rw [List.map_map]
    show ((rows.foldl enumStep []).map Prod.fst).contains _ = true
    simpa using name_mem_enumFold hp2 rows [] h2
  · intro db excluded er her
    simp only [mysqlGetEnumRelationships] at her
    obtain ⟨r, hr, rfl⟩ := List.mem_map.mp her
    exact ⟨r.column_name, rfl⟩

/-- Witness for C5: two rows with byte-identical enum value lists in
tables t1 and t2 both contribute their own synthesized entry. -/
theorem claim_C5_witness :
    (((mysqlGetEnums [⟨"enum('a','b')", "status", "t1"⟩,
        ⟨"enum('a','b')", "status", "t2"⟩]).map EnumType.name).contains
      (mkEnumName "t1" "status") = true) ∧
    (((mysqlGetEnums [⟨"enum('a','b')", "status", "t1"⟩,
        ⟨"enum('a','b')", "status", "t2"⟩]).map EnumType.name).contains
      (mkEnumName "t2" "status") = true) := by
  have h := claim_C5 [⟨"enum('a','b')", "status", "t1"⟩, ⟨"enum('a','b')", "status", "t2"⟩]
    ⟨"enum('a','b')", "status", "t1"⟩ ⟨"enum('a','b')", "status", "t2"⟩
    (by decide) (by decide) (by decide) (by decide) (by decide)
  exact ⟨h.1, h.2.1⟩

/-! ### "X:"-pair analysis for the index-marker suppression claim -/

theorem chainOkB_iff : ∀ (l : List Char), chainOkB l = true ↔ List.Chain' xcolonFree l := by
  intro l
  induction l with
  | nil => simp [chainOkB, List.chain'_nil]
  | cons a tail ih =>
    cases tail with
    | nil => simp [chainOkB, List.chain'_singleton]
    | cons b rest =>
      rw [List.chain'_cons]
      show (!(a == 'X' && b == ':') && chainOkB (b :: rest)) = true ↔ _
      rw [Bool.and_eq_true, ih]
      constructor
      · intro ⟨hp, hc⟩
        refine ⟨?_, hc⟩
        intro ⟨hX, hcolon⟩
        subst hX
        subst hcolon
        simp at hp
      · intro ⟨hp, hc⟩
        refine ⟨?_, hc⟩
        rw [Bool.not_eq_true']
        rw [Bool.and_eq_false_iff]
        by_cases hX : a = 'X'
        · subst hX
          right
          rw [beq_eq_false_iff_ne]
          intro hcolon
          exact hp ⟨rfl, hcolon⟩
        · left
          rw [beq_eq_false_iff_ne]
          exact hX

theorem chainOk_of_B {l : List Char} (h : chainOkB l = true) :
    List.Chain' xcolonFree l :=
  (chainOkB_iff l).mp h

theorem safeR_nil : SafeR [] :=
  ⟨List.chain'_nil, by simp⟩

theorem safeR_of_checks {l : List Char} (h1 : chainOkB l = true)
    (h2 : (l.head? == some ':') = false) : SafeR l :=
  ⟨chainOk_of_B h1, by simpa using h2⟩

theorem safeR_append {a b : List Char} (ha : SafeR a) (hb : SafeR b) :
    SafeR (a ++ b) := by
  constructor
  · rw [List.chain'_append]
    refine ⟨ha.1, hb.1, ?_⟩
    intro x hx y hy hxy
    rw [Option.mem_def] at hy
    exact hb.2 (by rw [hy, hxy.2])
  · cases a with
    | nil => simpa using hb.2
    | cons c cs => simpa using ha.2

theorem safeR_block {a s rest : List Char} (h1 : chainOkB a = true)
    (h2 : (a.head? == some ':') = false)
    (h3 : (a.getLast? == some 'X') = false)
    (h4 : a ≠ []) (h5 : List.Chain' xcolonFree s) (h6 : SafeR rest) :
    SafeR (a ++ (s ++ rest)) := by
  constructor
  · rw [List.chain'_append]
    refine ⟨chainOk_of_B h1, ?_, ?_⟩
    · rw [List.chain'_append]
      refine ⟨h5, h6.1, ?_⟩
      intro x hx y hy hxy
      rw [Option.mem_def] at hy
      exact h6.2 (by rw [hy, hxy.2])
    · intro x hx y hy hxy
      rw [Option.mem_def] at hx
      rw [hx, hxy.1] at h3
      simp at h3
  · cases a with
    | nil => exact absurd rfl h4
    | cons c cs => simpa using h2

theorem safeR_joinStrs {α : Type} (f : α → String) {l : List α}
    (h : ∀ x ∈ l, SafeR (f x).data) : SafeR (joinStrs (l.map f)).data := by
  induction l with
  | nil => exact safeR_nil
  | cons x xs ih =>
    rw [List.map_cons]
    show SafeR ((f x ++ joinStrs (xs.map f)).data)
    rw [String.data_append]
    exact safeR_append (h x (by simp))
      (ih fun y hy => h y (List.mem_cons_of_mem x hy))

theorem safeR_valueLine {v : String} (hv : List.Chain' xcolonFree v.data) :
    SafeR ("        " ++ v ++ " string\n").data := by
  have h := safeR_block (a := "        ".data) (by decide) (by decide) (by decide)
    (by decide) hv (safeR_of_checks (l := " string\n".data) (by decide) (by decide))
  have heq : ("        " ++ v ++ " string\n").data =
      "        ".data ++ (v.data ++ " string\n".data) := by
    simp [String.data_append, List.append_assoc]
  rw [heq]
  exact h

theorem safeR_enumBlock {e : EnumType} (hn : chainOkB e.name.data = true)
    (hv : ∀ v ∈ e.values, chainOkB v.data = true) :
    SafeR (enumBlock e).data := by
  have hjoin : SafeR (joinStrs (e.values.map fun v => "        " ++ v ++ " string\n")).data :=
    safeR_joinStrs _ fun v hvv => safeR_valueLine (chainOk_of_B (hv v hvv))
  have hrest : SafeR (" (ENUM)\" \x7b\n".data ++
      ((joinStrs (e.values.map fun v => "        " ++ v ++ " string\n")).data ++
        "    \x7d\n".data)) :=
    safeR_append (safeR_of_checks (by decide) (by decide))
      (safeR_append hjoin (safeR_of_checks (by decide) (by decide)))
  have hfull := safeR_block (a := "\n    \"".data) (by decide) (by decide) (by decide)
    (by decide) (chainOk_of_B hn) hrest
  have heq : (enumBlock e).data = "\n    \"".data ++ (e.name.data ++
      (" (ENUM)\" \x7b\n".data ++
        ((joinStrs (e.values.map fun v => "        " ++ v ++ " string\n")).data ++
          "    \x7d\n".data))) := by
    unfold enumBlock
    rw [foldl_append_eq_join (fun v => "        " ++ v ++ " string\n")]
    simp [String.data_append, List.append_assoc]
  rw [heq]
  exact hfull

theorem safeR_columnLine {c : Column}
    (hn : chainOkB c.name.data = true)
    (ht : chainOkB (cleanType c.type).data = true) :
    SafeR (columnLine c).data := by
  have hki : SafeR ((getKeyIndicator c).data ++ "\n".data) := by
    have hcases : getKeyIndicator c = " PK" ∨ getKeyIndicator c = " FK" ∨
        getKeyIndicator c = " UK" ∨ getKeyIndicator c = "" := by
      unfold getKeyIndicator
      split_ifs <;> simp
    rcases hcases with h | h | h | h <;> rw [h] <;>
      exact safeR_of_checks (by decide) (by decide)
  have hrest : SafeR (" ".data ++ ((cleanType c.type).data ++
      ((getKeyIndicator c).data ++ "\n".data))) :=
    safeR_block (a := " ".data) (by decide) (by decide) (by decide) (by decide)
      (chainOk_of_B ht) hki
  have hfull := safeR_block (a := "        ".data) (by decide) (by decide) (by decide)
    (by decide) (chainOk_of_B hn) hrest
  have heq : (columnLine c).data = "        ".data ++ (c.name.data ++
      (" ".data ++ ((cleanType c.type).data ++ ((getKeyIndicator c).data ++ "\n".data)))) := by
    unfold columnLine
    simp [String.data_append, List.append_assoc]
  rw [heq]
  exact hfull

theorem safeR_tableBlock {t : Table} (hidx : t.indexes = none)
    (hn : chainOkB t.name.data = true)
    (hcols : ∀ c ∈ t.columns, chainOkB c.name.data = true ∧
      chainOkB (cleanType c.type).data = true) :
    SafeR (tableBlock t).data := by
  have hjoin : SafeR (joinStrs (t.columns.map columnLine)).data :=
    safeR_joinStrs columnLine fun c hcc =>
      safeR_columnLine (hcols c hcc).1 (hcols c hcc).2
  have hrest : SafeR (" \x7b\n".data ++
      ((joinStrs (t.columns.map columnLine)).data ++ "    \x7d\n".data)) :=
    safeR_append (safeR_of_checks (by decide) (by decide))
      (safeR_append hjoin (safeR_of_checks (by decide) (by decide)))
  have hfull := safeR_block (a := "\n    ".data) (by decide) (by decide) (by decide)
    (by decide) (chainOk_of_B hn) hrest
  have heq : (tableBlock t).data = "\n    ".data ++ (t.name.data ++
      (" \x7b\n".data ++ ((joinStrs (t.columns.map columnLine)).data ++
        "    \x7d\n".data))) := by
    unfold tableBlock indexSection
    rw [hidx, foldl_append_eq_join columnLine]
    simp [String.data_append, List.append_assoc]
  rw [heq]
  exact hfull

theorem safeR_relLine {r : Relationship}
    (hf : chainOkB r.fromTable.data = true)
    (ht : chainOkB r.toTable.data = true) :
    SafeR (relLine r).data := by
  unfold relLine
  by_cases hty : r.type = "identifying"
  · rw [if_pos hty]
    have hinner := safeR_block (a := " ||--o\x7b ".data) (by decide) (by decide)
      (by decide) (by decide) (chainOk_of_B ht)
      (safeR_of_checks (l := " : \"has\"\n".data) (by decide) (by decide))
    have hfull := safeR_block (a := "    ".data) (by decide) (by decide) (by decide)
      (by decide) (chainOk_of_B hf) hinner
    have heq : ("    " ++ r.fromTable ++ " ||--o\x7b " ++ r.toTable ++ " : \"has\"\n").data =
        "    ".data ++ (r.fromTable.data ++ (" ||--o\x7b ".data ++
          (r.toTable.data ++ " : \"has\"\n".data))) := by
      simp [String.data_append, List.append_assoc]
    rw [heq]
    exact hfull
  · rw [if_neg hty]
    have hinner := safeR_block (a := " ||..o\x7b ".data) (by decide) (by decide)
      (by decide) (by decide) (chainOk_of_B ht)
      (safeR_of_checks (l := " : \"references\"\n".data) (by decide) (by decide))
    have hfull := safeR_block (a := "    ".data) (by decide) (by decide) (by decide)
      (by decide) (chainOk_of_B hf) hinner
    have heq : ("    " ++ r.fromTable ++ " ||..o\x7b " ++ r.toTable ++ " : \"references\"\n").data =
        "    ".data ++ (r.fromTable.data ++ (" ||..o\x7b ".data ++
          (r.toTable.data ++ " : \"references\"\n".data))) := by
      simp [String.data_append, List.append_assoc]
    rw [heq]
    exact hfull

theorem safeR_enumRelLine {r : EnumRelationship}
    (htab : chainOkB r.table.data = true)
    (hety : chainOkB r.enumType.data = true) :
    SafeR (enumRelLine r).data := by
  have hinner := safeR_block (a := " \x7do--|| \"".data) (by decide) (by decide)
    (by decide) (by decide) (chainOk_of_B hety)
    (safeR_of_checks (l := " (ENUM)\" : \"uses\"\n".data) (by decide) (by decide))
  have hfull := safeR_block (a := "    ".data) (by decide) (by decide) (by decide)
    (by decide) (chainOk_of_B htab) hinner
  have heq : (enumRelLine r).data = "    ".data ++ (r.table.data ++
      (" \x7do--|| \"".data ++ (r.enumType.data ++ " (ENUM)\" : \"uses\"\n".data))) := by
    unfold enumRelLine
    simp [String.data_append, List.append_assoc]
  rw [heq]
  exact hfull

theorem safeR_generateEnums {enums : List EnumType}
    (he : ∀ e ∈ enums, chainOkB e.name.data = true ∧
      ∀ v ∈ e.values, chainOkB v.data = true) :
    SafeR (generateEnums enums).data := by
  unfold generateEnums
  by_cases hlen : enums.length = 0
  · rw [if_pos hlen]
    exact safeR_of_checks (by decide) (by decide)
  · rw [if_neg hlen, foldl_append_eq_join enumBlock, String.data_append]
    exact safeR_append (safeR_of_checks (by decide) (by decide))
      (safeR_joinStrs enumBlock fun e hee =>
        safeR_enumBlock (he e hee).1 (he e hee).2)

theorem safeR_generateTables {tables : List Table}
    (hidx : ∀ t ∈ tables, t.indexes = none)
    (ht : ∀ t ∈ tables, chainOkB t.name.data = true ∧
      ∀ c ∈ t.columns, chainOkB c.name.data = true ∧
        chainOkB (cleanType c.type).data = true) :
    SafeR (generateTables tables).data := by
  unfold generateTables
  rw [foldl_append_eq_join tableBlock, String.data_append]
  exact safeR_append (safeR_of_checks (by decide) (by decide))
    (safeR_joinStrs tableBlock fun t htt =>
      safeR_tableBlock (hidx t htt) (ht t htt).1 fun c hcc => (ht t htt).2 c hcc)

theorem safeR_generateRelationships {rels : List Relationship}
    (hr : ∀ r ∈ rels, chainOkB r.fromTable.data = true ∧
      chainOkB r.toTable.data = true) :
    SafeR (generateRelationships rels).data := by
  unfold generateRelationships
  by_cases hlen : rels.length = 0
  · rw [if_pos hlen]
    exact safeR_of_checks (by decide) (by decide)
  · rw [if_neg hlen, foldl_append_eq_join relLine, String.data_append]
    exact safeR_append (safeR_of_checks (by decide) (by decide))
      (safeR_joinStrs relLine fun r hrr =>
        safeR_relLine (hr r hrr).1 (hr r hrr).2)

theorem safeR_generateEnumRelationships {rels : List EnumRelationship}
    (hq : ∀ r ∈ rels, chainOkB r.table.data = true ∧
      chainOkB r.enumType.data = true) :
    SafeR (generateEnumRelationships rels).data := by
  unfold generateEnumRelationships
  by_cases hlen : rels.length = 0
  · rw [if_pos hlen]
    exact safeR_of_checks (by decide) (by decide)
  · rw [if_neg hlen, foldl_append_eq_join enumRelLine]
    show SafeR (("\n" ++ ("" ++ joinStrs (rels.map enumRelLine))).data)
    rw [String.data_append, String.data_append]
    exact safeR_append (safeR_of_checks (by decide) (by decide))
      (safeR_append (safeR_of_checks (by decide) (by decide))
        (safeR_joinStrs enumRelLine fun r hrr =>
          safeR_enumRelLine (hq r hrr).1 (hq r hrr).2))

theorem safeR_generate {schema : DatabaseSchema}
    (hidx : ∀ t ∈ schema.tables, t.indexes = none)
    (he : ∀ e ∈ schema.enums, chainOkB e.name.data = true ∧
      ∀ v ∈ e.values, chainOkB v.data = true)
    (ht : ∀ t ∈ schema.tables, chainOkB t.name.data = true ∧
      ∀ c ∈ t.columns, chainOkB c.name.data = true ∧
        chainOkB (cleanType c.type).data = true)
    (hr : ∀ r ∈ schema.relationships, chainOkB r.fromTable.data = true ∧
      chainOkB r.toTable.data = true)
    (hq : ∀ r ∈ schema.enumRelationships, chainOkB r.table.data = true ∧
      chainOkB r.enumType.data = true) :
    List.Chain' xcolonFree (generate schema).data := by
  have hall : SafeR (generate schema).data := by
    have heq : (generate schema).data = "erDiagram\n".data ++
        ((generateEnums schema.enums).data ++ ((generateTables schema.tables).data ++
          ("\n".data ++ ((generateRelationships schema.relationships).data ++
            (generateEnumRelationships schema.enumRelationships).data)))) := by
      unfold generate
      simp [String.data_append, List.append_assoc]
    rw [heq]
    exact safeR_append (safeR_of_checks (by decide) (by decide))
      (safeR_append (safeR_generateEnums he)
        (safeR_append (safeR_generateTables hidx ht)
          (safeR_append (safeR_of_checks (by decide) (by decide))
            (safeR_append (safeR_generateRelationships hr)
              (safeR_generateEnumRelationships hq)))))
  exact hall.1

theorem not_infix_of_chain {l : List Char}
    (h : List.Chain' xcolonFree l) : ¬("INDEX:".data <:+: l) := by
  intro hinf
  obtain ⟨u, v, huv⟩ := hinf
  rw [← huv] at h
  have h1 := (List.chain'_append.mp h).1
  have h2 := (List.chain'_append.mp h1).2.1
  have h3 := (chainOkB_iff _).mpr h2
  exact absurd h3 (by decide)

theorem infix_index_of_unique :
    "INDEX:".data <:+: "UNIQUE INDEX:".data := by
  decide

theorem not_index_marker {schema : DatabaseSchema}
    (hidx : ∀ t ∈ schema.tables, t.indexes = none)
    (hok : schemaXColonOk schema = true) :
    ¬("INDEX:".data <:+: (generate schema).data) ∧
    ¬("UNIQUE INDEX:".data <:+: (generate schema).data) := by
  simp only [schemaXColonOk, Bool.and_eq_true, List.all_eq_true] at hok
  obtain ⟨⟨⟨he, ht⟩, hr⟩, hq⟩ := hok
  have hchain : List.Chain' xcolonFree (generate schema).data :=
    safeR_generate hidx he ht hr hq
  refine ⟨not_infix_of_chain hchain, ?_⟩
  intro hinf
  exact not_infix_of_chain hchain (infix_index_of_unique.trans hinf)

theorem mysql_tables_indexes_none (db : MySQLDb) (excluded : List String) :
    ∀ t ∈ (mysqlGetSchema db excluded false).tables, t.indexes = none := by
  intro t htt
  simp only [mysqlGetSchema, mysqlGetTables] at htt
  obtain ⟨nm, _, rfl⟩ := List.mem_map.mp htt
  rfl

theorem pg_tables_indexes_none (pdb : PgDb) (excluded : List String) :
    ∀ t ∈ (pgGetSchema pdb excluded false).tables, t.indexes = none := by
  intro t htt
  simp only [pgGetSchema, pgGetTables] at htt
  obtain ⟨nm, _, rfl⟩ := List.mem_map.mp htt
  rfl

/-- Counterexample for C6: with showIndexes=false every table's indexes
field is indeed absent, but a catalog whose table is named "INDEX: t"
(legal as a quoted identifier) makes the rendered diagram contain the
substring "INDEX:" anyway, so the substring part of the claim as stated
is false. -/
theorem claim_C6_counterexample :
    ((mysqlGetSchema ⟨[], ["INDEX: t"], fun _ => [], fun _ _ => false,
        fun _ _ => false, fun _ _ => false, [], [], fun _ => []⟩ [] false).tables.all
      fun t => t.indexes.isNone) = true ∧
    ("INDEX:".data <:+:
      (generate (mysqlGetSchema ⟨[], ["INDEX: t"], fun _ => [], fun _ _ => false,
        fun _ _ => false, fun _ _ => false, [], [], fun _ => []⟩ [] false)).data) := by
  constructor
  · decide
  · decide

/-- C6 (amended): with showIndexes=false every Table of either adapter's
Schema Model has `indexes` absent, and — provided no catalog-derived
string of the schema contains the character pair "X:" — the rendered
diagram contains neither "INDEX:" nor "UNIQUE INDEX:" as a substring.
(As stated the claim held for arbitrary catalog strings, but a table or
column name may itself contain "INDEX:", see the counterexample.) -/
theorem claim_C6 (db : MySQLDb) (pdb : PgDb) (excluded : List String) :
    (((mysqlGetSchema db excluded false).tables.all fun t => t.indexes.isNone) = true) ∧
    (((pgGetSchema pdb excluded false).tables.all fun t => t.indexes.isNone) = true) ∧
    (schemaXColonOk (mysqlGetSchema db excluded false) = true →
      ¬("INDEX:".data <:+: (generate (mysqlGetSchema db excluded false)).data) ∧
      ¬("UNIQUE INDEX:".data <:+: (generate (mysqlGetSchema db excluded false)).data)) ∧
    (schemaXColonOk (pgGetSchema pdb excluded false) = true →
      ¬("INDEX:".data <:+: (generate (pgGetSchema pdb excluded false)).data) ∧
      ¬("UNIQUE INDEX:".data <:+: (generate (pgGetSchema pdb excluded false)).data)) := by
  refine ⟨?_, ?_, ?_, ?_⟩
  · rw [List.all_eq_true]
    intro t htt
    rw [mysql_tables_indexes_none db excluded t htt]
    rfl
  · rw [List.all_eq_true]
    intro t htt
    rw [pg_tables_indexes_none pdb excluded t htt]
    rfl
  · intro hok
    exact not_index_marker (mysql_tables_indexes_none db excluded) hok
  · intro hok
    exact not_index_marker (pg_tables_indexes_none pdb excluded) hok

/-- Witness for C6: a concrete catalog with a users table and an enum,
whose strings contain no "X:" pair, renders without any index marker. -/
theorem claim_C6_witness :
    (¬("INDEX:".data <:+:
      (generate (mysqlGetSchema ⟨[⟨"enum('a','b')", "status", "users"⟩], ["users"],
        fun _ => [⟨"id", "int"⟩], fun _ _ => true, fun _ _ => false, fun _ _ => false,
        [], [⟨"users", "status"⟩], fun _ => []⟩ ["x"] false)).data)) ∧
    (¬("INDEX:".data <:+:
      (generate (pgGetSchema ⟨["user_status"], fun _ => ["active"], ["users"],
        fun _ => [⟨"id", "integer"⟩], fun _ _ => true, fun _ _ => false, fun _ _ => false,
        [⟨"users", "users", "CASCADE"⟩], fun _ => ["user_status"], fun _ => []⟩
        ["x"] false)).data)) :=
  ⟨((claim_C6 ⟨[⟨"enum('a','b')", "status", "users"⟩], ["users"],
      fun _ => [⟨"id", "int"⟩], fun _ _ => true, fun _ _ => false, fun _ _ => false,
      [], [⟨"users", "status"⟩], fun _ => []⟩
    ⟨["user_status"], fun _ => ["active"], ["users"],
      fun _ => [⟨"id", "integer"⟩], fun _ _ => true, fun _ _ => false, fun _ _ => false,
      [⟨"users", "users", "CASCADE"⟩], fun _ => ["user_status"], fun _ => []⟩
    ["x"]).2.2.1 (by decide)).1,
   ((claim_C6 ⟨[⟨"enum('a','b')", "status", "users"⟩], ["users"],
      fun _ => [⟨"id", "int"⟩], fun _ _ => true, fun _ _ => false, fun _ _ => false,
      [], [⟨"users", "status"⟩], fun _ => []⟩
    ⟨["user_status"], fun _ => ["active"], ["users"],
      fun _ => [⟨"id", "integer"⟩], fun _ _ => true, fun _ _ => false, fun _ _ => false,
      [⟨"users", "users", "CASCADE"⟩], fun _ => ["user_status"], fun _ => []⟩
    ["x"]).2.2.2 (by decide)).1⟩

end ERDiagram
